import Mathlib

/-!
# Verification of the triagent command-approval core

A shallow embedding of the repository's risk classifier, approval ledger,
command gateway and remote-shell output parser, together with theorems
settling the specification claims about them.

JavaScript regular-expression tests are embedded through a small
backtracking matcher (`reMatch`) whose alternation and greediness order
mirrors the JS engine; `String.replace` calls are embedded as bespoke
scanners that reproduce the exact match extents of the source patterns.
Time (`Date`) is modelled as milliseconds in `Nat`; `new Date() > e`
becomes `e < now`.  JS `Map` objects become insertion-ordered association
lists with `mapGet` / `mapSet` / `mapDelete`.
-/

namespace Triagent

/-- JS whitespace class `\s` (the ASCII part, which covers every string the
source patterns are run against). -/
def jsWS (c : Char) : Bool :=
  c = ' ' || c = '\t' || c = '\n' || c = '\r' || c = '\x0b' || c = '\x0c'

/-- JS word character (for `\b`). -/
def isWordChar (c : Char) : Bool :=
  c.isAlpha || c.isDigit || c = '_'

/-- Case-insensitive character comparison (the `/i` flag). -/
def lowerEq (a b : Char) : Bool :=
  a.toLower = b.toLower

/-- Regular-expression syntax: exactly the constructs appearing in the
source patterns. -/
inductive RE where
  | eps      : RE
  | lit      : Char → RE
  | ws       : RE
  | digit    : RE
  | dot      : RE
  | anyc     : RE
  | cls      : List Char → RE
  | seq      : RE → RE → RE
  | alt      : RE → RE → RE
  | star     : RE → RE
  | plus     : RE → RE
  | opt      : RE → RE
  | wordB    : RE
  | nla      : List Char → RE
deriving Repr

/-- Structural size of a regex, used to compute matcher fuel. -/
def reSize : RE → Nat
  | .eps => 1
  | .lit _ => 1
  | .ws => 1
  | .digit => 1
  | .dot => 1
  | .anyc => 1
  | .cls _ => 1
  | .seq a b => reSize a + reSize b + 1
  | .alt a b => reSize a + reSize b + 1
  | .star r => reSize r + 1
  | .plus r => reSize r + 1
  | .opt r => reSize r + 1
  | .wordB => 1
  | .nla _ => 1

/-- Does the word-character status of the previous character (none at the
start of input) differ from the next one?  This is the JS `\b` test. -/
def boundaryAt (prev : Option Char) (s : List Char) : Bool :=
  let a := match prev with
    | none => false
    | some c => isWordChar c
  let b := match s with
    | [] => false
    | c :: _ => isWordChar c
  a != b

/-- Case-possibly-insensitive literal prefix test, used for the negative
lookahead `(?!tmp)`. -/
def litPre (ci : Bool) : List Char → List Char → Bool
  | [], _ => true
  | _ :: _, [] => false
  | p :: ps, c :: cs => (if ci then lowerEq p c else p = c) && litPre ci ps cs

/-- Backtracking regex matcher in continuation-passing style.  The order in
which alternatives and repetition counts are tried is the JS order:
alternation left to right, greedy operators longest first.  `prev` is the
character just before the current position (for `\b`), `k` the
continuation.  Fuel only bounds recursion depth; `reFuel` below always
provides enough for the patterns and inputs in this development. -/
def reMatch : Nat → Bool → RE → Option Char → List Char → (Option Char → List Char → Bool) → Bool
  | 0, _, _, _, _, _ => false
  | _ + 1, _, .eps, prev, s, k => k prev s
  | _ + 1, ci, .lit c, _, s, k =>
      match s with
      | [] => false
      | d :: rest => (if ci then lowerEq c d else c = d) && k (some d) rest
  | _ + 1, _, .ws, _, s, k =>
      match s with
      | [] => false
      | d :: rest => jsWS d && k (some d) rest
  | _ + 1, _, .digit, _, s, k =>
      match s with
      | [] => false
      | d :: rest => d.isDigit && k (some d) rest
  | _ + 1, _, .dot, _, s, k =>
      match s with
      | [] => false
      | d :: rest => (d != '\n' && d != '\r') && k (some d) rest
  | _ + 1, _, .anyc, _, s, k =>
      match s with
      | [] => false
      | d :: rest => k (some d) rest
  | _ + 1, ci, .cls cs, _, s, k =>
      match s with
      | [] => false
      | d :: rest => cs.any (fun c => if ci then lowerEq c d else c = d) && k (some d) rest
  | f + 1, ci, .seq a b, prev, s, k =>
      reMatch f ci a prev s (fun p s2 => reMatch f ci b p s2 k)
  | f + 1, ci, .alt a b, prev, s, k =>
      reMatch f ci a prev s k || reMatch f ci b prev s k
  | f + 1, ci, .star r, prev, s, k =>
      reMatch f ci r prev s (fun p s2 => reMatch f ci (.star r) p s2 k) || k prev s
  | f + 1, ci, .plus r, prev, s, k =>
      reMatch f ci r prev s (fun p s2 => reMatch f ci (.star r) p s2 k)
  | f + 1, ci, .opt r, prev, s, k =>
      reMatch f ci r prev s k || k prev s
  | _ + 1, _, .wordB, prev, s, k =>
      boundaryAt prev s && k prev s
  | _ + 1, ci, .nla lits, prev, s, k =>
      !litPre ci lits s && k prev s

/-- Fuel that over-approximates the recursion depth of `reMatch` on this
pattern and input. -/
def reFuel (re : RE) (s : List Char) : Nat :=
  (reSize re + 2) * (s.length + 2)

/-- Try to match `re` starting at each position of the input, leftmost
first: the JS `RegExp.test` / unanchored-search semantics. -/
def reSearch (ci : Bool) (re : RE) : Option Char → List Char → Bool
  | prev, s =>
      reMatch (reFuel re s) ci re prev s (fun _ _ => true) ||
        match s with
        | [] => false
        | c :: rest => reSearch ci re (some c) rest

/-- JS `pattern.test(str)` with case-insensitivity flag `ci`. -/
def reTest (ci : Bool) (re : RE) (str : String) : Bool :=
  reSearch ci re none str.data

/-- A sequence of literal characters. -/
def rstr (s : String) : RE :=
  (s.data.map RE.lit).foldr RE.seq RE.eps

/-- Concatenation of a pattern list. -/
def rcat (rs : List RE) : RE :=
  rs.foldr RE.seq RE.eps

/-- Alternation of a pattern list, tried left to right like JS `|`. -/
def raltR : List RE → RE
  | [] => .eps
  | [r] => r
  | r :: rest => .alt r (raltR rest)

/-- Alternation of literal words. -/
def ralts (ss : List String) : RE :=
  raltR (ss.map rstr)

/-- Greedy `\s+`. -/
def wsP : RE := .plus .ws

/-! ## Pattern tables

`WRITE_COMMAND_PATTERNS` from `cli.ts` and the tier tables from
`approval-store.ts`, transcribed pattern by pattern.  The `Bool` flags the
`/i` case-insensitivity flag of the source literal (only the
redirect-detection pattern lacks it). -/

/-- `/\bkubectl\s+(delete|apply|create|patch|edit|replace|set|label|annotate|taint|cordon|uncordon|drain)\b/i` -/
def wpKubectlVerb : RE :=
  rcat [.wordB, rstr "kubectl", wsP,
    ralts ["delete", "apply", "create", "patch", "edit", "replace", "set", "label",
      "annotate", "taint", "cordon", "uncordon", "drain"], .wordB]

/-- `/\bkubectl\s+rollout\s+(restart|undo|pause|resume)\b/i` -/
def wpKubectlRollout : RE :=
  rcat [.wordB, rstr "kubectl", wsP, rstr "rollout", wsP,
    ralts ["restart", "undo", "pause", "resume"], .wordB]

/-- `/\bkubectl\s+scale\b/i` -/
def wpKubectlScale : RE :=
  rcat [.wordB, rstr "kubectl", wsP, rstr "scale", .wordB]

/-- `/\bkubectl\s+exec\b.*\s+--\s+.*(rm|mv|cp|chmod|chown|kill|pkill|shutdown|reboot|dd|mkfs|fdisk)\b/i` -/
def wpKubectlExec : RE :=
  rcat [.wordB, rstr "kubectl", wsP, rstr "exec", .wordB, .star .dot, wsP,
    rstr "--", wsP, .star .dot,
    ralts ["rm", "mv", "cp", "chmod", "chown", "kill", "pkill", "shutdown",
      "reboot", "dd", "mkfs", "fdisk"], .wordB]

/-- `/\bgit\s+(commit|push|merge|rebase|reset|checkout|stash|tag|branch\s+-[dD]|cherry-pick|revert|am|pull)\b/i` -/
def wpGit : RE :=
  rcat [.wordB, rstr "git", wsP,
    raltR [rstr "commit", rstr "push", rstr "merge", rstr "rebase", rstr "reset",
      rstr "checkout", rstr "stash", rstr "tag",
      rcat [rstr "branch", wsP, .lit '-', .cls ['d', 'D']],
      rstr "cherry-pick", rstr "revert", rstr "am", rstr "pull"], .wordB]

/-- `/\b(rm|rmdir|mv|cp|mkdir|touch|chmod|chown|ln)\s+/i` -/
def wpFsWrite : RE :=
  rcat [.wordB, ralts ["rm", "rmdir", "mv", "cp", "mkdir", "touch", "chmod", "chown", "ln"], wsP]

/-- `/\b(cat|echo|printf)\s+.*[>|]/` (no `/i` flag in the source). -/
def wpRedirect : RE :=
  rcat [.wordB, ralts ["cat", "echo", "printf"], wsP, .star .dot, .cls ['>', '|']]

/-- `/\btee\s+/i` -/
def wpTee : RE :=
  rcat [.wordB, rstr "tee", wsP]

/-- `/\bsed\s+-i/i` -/
def wpSed : RE :=
  rcat [.wordB, rstr "sed", wsP, rstr "-i"]

/-- `/\b(apt|apt-get|yum|dnf|brew|npm|yarn|pip|cargo)\s+(install|remove|uninstall|update|upgrade)\b/i` -/
def wpPkg : RE :=
  rcat [.wordB, ralts ["apt", "apt-get", "yum", "dnf", "brew", "npm", "yarn", "pip", "cargo"],
    wsP, ralts ["install", "remove", "uninstall", "update", "upgrade"], .wordB]

/-- `/\b(systemctl|service)\s+(start|stop|restart|enable|disable)\b/i` -/
def wpService : RE :=
  rcat [.wordB, ralts ["systemctl", "service"], wsP,
    ralts ["start", "stop", "restart", "enable", "disable"], .wordB]

/-- `/\bdocker\s+(rm|rmi|stop|kill|prune|system\s+prune)\b/i` -/
def wpDocker : RE :=
  rcat [.wordB, rstr "docker", wsP,
    raltR [rstr "rm", rstr "rmi", rstr "stop", rstr "kill", rstr "prune",
      rcat [rstr "system", wsP, rstr "prune"]], .wordB]

/-- `/\bdocker-compose\s+(down|rm|stop)\b/i` -/
def wpDockerCompose : RE :=
  rcat [.wordB, rstr "docker-compose", wsP, ralts ["down", "rm", "stop"], .wordB]

/-- `/\bhelm\s+(install|upgrade|uninstall|delete|rollback)\b/i` -/
def wpHelm : RE :=
  rcat [.wordB, rstr "helm", wsP,
    ralts ["install", "upgrade", "uninstall", "delete", "rollback"], .wordB]

/-- `WRITE_COMMAND_PATTERNS` from `cli.ts`, in source order, each paired
with its case-insensitivity flag. -/
def WRITE_COMMAND_PATTERNS : List (Bool × RE) :=
  [(true, wpKubectlVerb), (true, wpKubectlRollout), (true, wpKubectlScale),
   (true, wpKubectlExec), (true, wpGit), (true, wpFsWrite), (false, wpRedirect),
   (true, wpTee), (true, wpSed), (true, wpPkg), (true, wpService),
   (true, wpDocker), (true, wpDockerCompose), (true, wpHelm)]

/-- `isWriteCommand` from `cli.ts`: does any write pattern match? -/
def isWriteCommand (command : String) : Bool :=
  WRITE_COMMAND_PATTERNS.any fun p => reTest p.1 p.2 command

/-- `/\bkubectl\s+delete\s+(namespace|ns|node|pv|pvc|clusterrole)/i` -/
def cpKubectlDeleteScope : RE :=
  rcat [.wordB, rstr "kubectl", wsP, rstr "delete", wsP,
    ralts ["namespace", "ns", "node", "pv", "pvc", "clusterrole"]]

/-- `/\brm\s+-rf?\s+\/(?!tmp)/i` -/
def cpRmRf : RE :=
  rcat [.wordB, rstr "rm", wsP, .lit '-', .lit 'r', .opt (.lit 'f'), wsP,
    .lit '/', .nla "tmp".data]

/-- `/\bgit\s+push\s+.*--force/i` -/
def cpGitForcePush : RE :=
  rcat [.wordB, rstr "git", wsP, rstr "push", wsP, .star .dot, rstr "--force"]

/-- `/\bhelm\s+(uninstall|delete)\b/i` -/
def cpHelmUninstall : RE :=
  rcat [.wordB, rstr "helm", wsP, ralts ["uninstall", "delete"], .wordB]

/-- `CRITICAL_PATTERNS` from `approval-store.ts`, in source order. -/
def CRITICAL_PATTERNS : List RE :=
  [cpKubectlDeleteScope, cpRmRf, cpGitForcePush, cpHelmUninstall]

/-- `/\bkubectl\s+delete\b/i` -/
def hpKubectlDelete : RE :=
  rcat [.wordB, rstr "kubectl", wsP, rstr "delete", .wordB]

/-- `/\bkubectl\s+apply\s+-f\s+http/i` -/
def hpKubectlApplyUrl : RE :=
  rcat [.wordB, rstr "kubectl", wsP, rstr "apply", wsP, rstr "-f", wsP, rstr "http"]

/-- `/\bkubectl\s+drain\b/i` -/
def hpKubectlDrain : RE :=
  rcat [.wordB, rstr "kubectl", wsP, rstr "drain", .wordB]

/-- `/\bkubectl\s+cordon\b/i` -/
def hpKubectlCordon : RE :=
  rcat [.wordB, rstr "kubectl", wsP, rstr "cordon", .wordB]

/-- `/\bgit\s+reset\s+--hard/i` -/
def hpGitResetHard : RE :=
  rcat [.wordB, rstr "git", wsP, rstr "reset", wsP, rstr "--hard"]

/-- `/\bgit\s+push\b/i` -/
def hpGitPush : RE :=
  rcat [.wordB, rstr "git", wsP, rstr "push", .wordB]

/-- `/\bhelm\s+(install|upgrade)\b/i` -/
def hpHelmInstall : RE :=
  rcat [.wordB, rstr "helm", wsP, ralts ["install", "upgrade"], .wordB]

/-- `HIGH_PATTERNS` from `approval-store.ts`, in source order. -/
def HIGH_PATTERNS : List RE :=
  [hpKubectlDelete, hpKubectlApplyUrl, hpKubectlDrain, hpKubectlCordon,
   hpGitResetHard, hpGitPush, hpHelmInstall]

/-- `/\bkubectl\s+scale\b/i` -/
def mpKubectlScale : RE :=
  rcat [.wordB, rstr "kubectl", wsP, rstr "scale", .wordB]

/-- `/\bkubectl\s+rollout\s+(restart|undo)/i` -/
def mpKubectlRollout : RE :=
  rcat [.wordB, rstr "kubectl", wsP, rstr "rollout", wsP, ralts ["restart", "undo"]]

/-- `/\bkubectl\s+(apply|create|patch)\b/i` -/
def mpKubectlApply : RE :=
  rcat [.wordB, rstr "kubectl", wsP, ralts ["apply", "create", "patch"], .wordB]

/-- `/\bgit\s+(commit|merge|rebase)/i` -/
def mpGitCommit : RE :=
  rcat [.wordB, rstr "git", wsP, ralts ["commit", "merge", "rebase"]]

/-- `MEDIUM_PATTERNS` from `approval-store.ts`, in source order. -/
def MEDIUM_PATTERNS : List RE :=
  [mpKubectlScale, mpKubectlRollout, mpKubectlApply, mpGitCommit]

/-- The four risk tiers of `PendingApproval.riskLevel`. -/
inductive RiskLevel where
  | low
  | medium
  | high
  | critical
deriving Repr, DecidableEq

/-- `classifyRisk` from `approval-store.ts`: first matching tier table wins,
default `low`.  All tier patterns carry the `/i` flag. -/
def classifyRisk (command : String) : RiskLevel :=
  if CRITICAL_PATTERNS.any (fun p => reTest true p command) then .critical
  else if HIGH_PATTERNS.any (fun p => reTest true p command) then .high
  else if MEDIUM_PATTERNS.any (fun p => reTest true p command) then .medium
  else .low

/-- The specification's `classify(command) -> RiskTier | None`: the write
gate (`isWriteCommand`) composed with the tier tables (`classifyRisk`),
exactly as the gateway uses them — a command gets a tier precisely when it
is detected as a write command. -/
def classify (command : String) : Option RiskLevel :=
  if isWriteCommand command then some (classifyRisk command) else none

/-! ## Redaction (`filterSensitiveData` from `cli.ts`)

Three chained `String.replace` calls:

1. `/(password|secret|token|key|credential)[\s:=]+["']?[^\s"'\n]+["']?/gi`
   replaced by `"$1: [REDACTED]"`;
2. `/Bearer\s+[^\s]+/gi` replaced by `"Bearer [REDACTED]"`;
3. `/-----BEGIN[^-]+-----[\s\S]*?-----END[^-]+-----/g` replaced by
   `"[REDACTED CERTIFICATE/KEY]"`.

Each is embedded as a scanner that reproduces the JS match extents,
including the backtracking of the greedy `[\s:=]+` run (whose characters
`:` and `=` also belong to the value class `[^\s"'\n]`). -/

/-- The separator class `[\s:=]`. -/
def sepChar (c : Char) : Bool :=
  jsWS c || c = ':' || c = '='

/-- The quote class `["']`. -/
def quoteChar (c : Char) : Bool :=
  c = '"' || c = '\''

/-- The value class `[^\s"'\n]` (newline is already whitespace). -/
def valChar (c : Char) : Bool :=
  !jsWS c && !quoteChar c

/-- Length of the maximal leading run satisfying `p`. -/
def runLen (p : Char → Bool) (s : List Char) : Nat :=
  (s.takeWhile p).length

/-- Case-insensitive literal prefix match returning the original-case
prefix consumed and the remainder (for the `$1` back-reference). -/
def ciPre : List Char → List Char → Option (List Char × List Char)
  | [], s => some ([], s)
  | _ :: _, [] => none
  | p :: ps, c :: cs =>
      if lowerEq p c then
        match ciPre ps cs with
        | some (o, r) => some (c :: o, r)
        | none => none
      else none

/-- Match `["']?[^\s"'\n]+["']?` at the head of `s`, returning the matched
length.  When the head is a quote the engine commits to it: backing the
optional quote off would place a quote character in the value class, which
excludes quotes, so that branch can never succeed. -/
def kwQuoteValue (s : List Char) : Option Nat :=
  match s with
  | [] => none
  | c :: rest =>
      if quoteChar c then
        let v := runLen valChar rest
        if v = 0 then none
        else
          match rest.drop v with
          | d :: _ => if quoteChar d then some (1 + v + 1) else some (1 + v)
          | [] => some (1 + v)
      else
        let v := runLen valChar (c :: rest)
        if v = 0 then none
        else
          match (c :: rest).drop v with
          | d :: _ => if quoteChar d then some (v + 1) else some v
          | [] => some v

/-- Backtrack the greedy `[\s:=]+` run from `j` separators down to one,
returning the total length consumed after the keyword. -/
def kwTail (s : List Char) : Nat → Option Nat
  | 0 => none
  | j + 1 =>
      match kwQuoteValue (s.drop (j + 1)) with
      | some l => some (j + 1 + l)
      | none => kwTail s j

/-- The keyword alternatives of the first redaction pattern, in source
order. -/
def kwList : List String :=
  ["password", "secret", "token", "key", "credential"]

/-- Match the first redaction pattern at the head of `s`: the original-case
keyword (the `$1` capture) and the total match length. -/
def kwMatchAt (s : List Char) : Option (List Char × Nat) :=
  kwList.firstM fun kw =>
    match ciPre kw.data s with
    | some (orig, rest) =>
        match kwTail rest (runLen sepChar rest) with
        | some l => some (orig, kw.length + l)
        | none => none
    | none => none

/-- One global-replace pass of the keyword pattern; `fuel` starts at the
input length (every match consumes at least one character). -/
def replaceKwF : Nat → List Char → List Char
  | 0, s => s
  | _ + 1, [] => []
  | f + 1, c :: rest =>
      match kwMatchAt (c :: rest) with
      | some (orig, len) => orig ++ (": [REDACTED]".data ++ replaceKwF f ((c :: rest).drop len))
      | none => c :: replaceKwF f rest

/-- `.replace(/(password|secret|token|key|credential)[\s:=]+["']?[^\s"'\n]+["']?/gi, "$1: [REDACTED]")` -/
def replaceKw (s : List Char) : List Char :=
  replaceKwF s.length s

/-- Match `Bearer\s+[^\s]+` (case-insensitively) at the head of `s`,
returning the matched length. -/
def bearerMatchAt (s : List Char) : Option Nat :=
  match ciPre "bearer".data s with
  | some (_, rest) =>
      let w := runLen jsWS rest
      if w = 0 then none
      else
        let v := runLen (fun c => !jsWS c) (rest.drop w)
        if v = 0 then none else some (6 + w + v)
  | none => none

/-- One global-replace pass of the bearer pattern. -/
def replaceBearerF : Nat → List Char → List Char
  | 0, s => s
  | _ + 1, [] => []
  | f + 1, c :: rest =>
      match bearerMatchAt (c :: rest) with
      | some len => "Bearer [REDACTED]".data ++ replaceBearerF f ((c :: rest).drop len)
      | none => c :: replaceBearerF f rest

/-- `.replace(/Bearer\s+[^\s]+/gi, "Bearer [REDACTED]")` -/
def replaceBearer (s : List Char) : List Char :=
  replaceBearerF s.length s

/-- Case-sensitive literal prefix test with remainder. -/
def csPre : List Char → List Char → Option (List Char)
  | [], s => some s
  | _ :: _, [] => none
  | p :: ps, c :: cs => if p = c then csPre ps cs else none

/-- Match `-----END[^-]+-----` at the head of `s`, returning the length. -/
def pemEndAt (s : List Char) : Option Nat :=
  match csPre "-----END".data s with
  | some rest =>
      let a := runLen (fun c => c != '-') rest
      if a = 0 then none
      else
        match csPre "-----".data (rest.drop a) with
        | some _ => some (8 + a + 5)
        | none => none
  | none => none

/-- The lazy `[\s\S]*?` scan: the smallest gap after which
`-----END[^-]+-----` matches, with that suffix's length. -/
def pemFindEnd : List Char → Option (Nat × Nat)
  | [] =>
      match pemEndAt [] with
      | some l => some (0, l)
      | none => none
  | c :: rest =>
      match pemEndAt (c :: rest) with
      | some l => some (0, l)
      | none =>
          match pemFindEnd rest with
          | some (g, l) => some (g + 1, l)
          | none => none

/-- Match `-----BEGIN[^-]+-----[\s\S]*?-----END[^-]+-----` at the head of
`s`, returning the matched length. -/
def pemMatchAt (s : List Char) : Option Nat :=
  match csPre "-----BEGIN".data s with
  | some rest =>
      let a := runLen (fun c => c != '-') rest
      if a = 0 then none
      else
        match csPre "-----".data (rest.drop a) with
        | some rest2 =>
            match pemFindEnd rest2 with
            | some (g, l) => some (10 + a + 5 + g + l)
            | none => none
        | none => none
  | none => none

/-- One global-replace pass of the PEM pattern. -/
def replacePemF : Nat → List Char → List Char
  | 0, s => s
  | _ + 1, [] => []
  | f + 1, c :: rest =>
      match pemMatchAt (c :: rest) with
      | some len => "[REDACTED CERTIFICATE/KEY]".data ++ replacePemF f ((c :: rest).drop len)
      | none => c :: replacePemF f rest

/-- `.replace(/-----BEGIN[^-]+-----[\s\S]*?-----END[^-]+-----/g, "[REDACTED CERTIFICATE/KEY]")` -/
def replacePem (s : List Char) : List Char :=
  replacePemF s.length s

/-- `filterSensitiveData` from `cli.ts`: the three replace passes chained
in source order. -/
def filterSensitiveData (output : String) : String :=
  String.mk (replacePem (replaceBearer (replaceKw output.data)))

/-! ## Approval ledger (`ApprovalStoreImpl` from `approval-store.ts`)

Time is `Nat` milliseconds; every method that calls `new Date()` takes the
current time `now` as a parameter.  The random `id` and `token` produced by
`randomBytes` in `requestApproval` are likewise parameters.  JS `Map`s
become insertion-ordered association lists. -/

/-- A `PendingApproval` record. -/
structure ApprovalEntry where
  id : String
  command : String
  token : String
  riskLevel : RiskLevel
  createdAt : Nat
  expiresAt : Nat
deriving Repr, DecidableEq

/-- A value of the `approvedTokens` map: `{ command, expiresAt }`. -/
structure TokenEntry where
  command : String
  expiresAt : Nat
deriving Repr, DecidableEq

/-- The two maps of `ApprovalStoreImpl`. -/
structure StoreState where
  pending : List (String × ApprovalEntry)
  approvedTokens : List (String × TokenEntry)
deriving Repr, DecidableEq

/-- JS `Map.get`. -/
def mapGet {α : Type} (m : List (String × α)) (k : String) : Option α :=
  (m.find? fun e => e.1 = k).map fun e => e.2

/-- JS `Map.set`: update in place if the key exists, else append. -/
def mapSet {α : Type} (m : List (String × α)) (k : String) (v : α) : List (String × α) :=
  if m.any (fun e => e.1 = k) then
    m.map fun e => if e.1 = k then (k, v) else e
  else m ++ [(k, v)]

/-- JS `Map.delete`. -/
def mapDelete {α : Type} (m : List (String × α)) (k : String) : List (String × α) :=
  m.filter fun e => !(e.1 = k : Bool)

/-- The JS comparison `new Date() > expiresAt`. -/
def expiredB (now t : Nat) : Bool :=
  t < now

/-- `EXPIRATION_MS = 10 * 60 * 1000`. -/
def EXPIRATION_MS : Nat := 10 * 60 * 1000

/-- `clearExpired`: drop every pending approval and approved token whose
expiry has passed. -/
def clearExpired (st : StoreState) (now : Nat) : StoreState :=
  { pending := st.pending.filter fun e => !expiredB now e.2.expiresAt
    approvedTokens := st.approvedTokens.filter fun e => !expiredB now e.2.expiresAt }

/-- `requestApproval(command)`: sweep, then store a fresh pending approval
with the classified risk level and a 10-minute expiry. -/
def requestApproval (st : StoreState) (now : Nat) (id token command : String) :
    ApprovalEntry × StoreState :=
  let st1 := clearExpired st now
  let a : ApprovalEntry :=
    { id := id, command := command, token := token, riskLevel := classifyRisk command,
      createdAt := now, expiresAt := now + EXPIRATION_MS }
  (a, { st1 with pending := mapSet st1.pending id a })

/-- `approve(id)`: missing → `null`; expired → delete and `null`;
otherwise move the entry into `approvedTokens` and return its token. -/
def approve (st : StoreState) (now : Nat) (id : String) : Option String × StoreState :=
  match mapGet st.pending id with
  | none => (none, st)
  | some p =>
      if expiredB now p.expiresAt then
        (none, { st with pending := mapDelete st.pending id })
      else
        (some p.token,
          { pending := mapDelete st.pending id
            approvedTokens := mapSet st.approvedTokens p.token
              { command := p.command, expiresAt := p.expiresAt } })

/-- `reject(id)`. -/
def reject (st : StoreState) (id : String) : StoreState :=
  { st with pending := mapDelete st.pending id }

/-- `validateToken(command, token)`: absent → false; expired → delete,
false; command mismatch → false; otherwise delete (one-time use), true. -/
def validateToken (st : StoreState) (now : Nat) (command token : String) :
    Bool × StoreState :=
  match mapGet st.approvedTokens token with
  | none => (false, st)
  | some a =>
      if expiredB now a.expiresAt then
        (false, { st with approvedTokens := mapDelete st.approvedTokens token })
      else if a.command ≠ command then (false, st)
      else (true, { st with approvedTokens := mapDelete st.approvedTokens token })

/-- `getPending(id)`: delete and return `undefined` when the looked-up
entry is expired; otherwise return the lookup result unchanged. -/
def getPending (st : StoreState) (now : Nat) (id : String) :
    Option ApprovalEntry × StoreState :=
  match mapGet st.pending id with
  | some p =>
      if expiredB now p.expiresAt then
        (none, { st with pending := mapDelete st.pending id })
      else (some p, st)
  | none => (none, st)

/-- `getAllPending()`: sweep, then list the pending values. -/
def getAllPending (st : StoreState) (now : Nat) :
    List ApprovalEntry × StoreState :=
  let st1 := clearExpired st now
  (st1.pending.map fun e => e.2, st1)

/-! ## Command gateway (`cliTool.execute` from `cli.ts`) -/

/-- An execution backend result (`CommandResult` in `bashlet.ts`). -/
structure CommandResult where
  stdout : String
  stderr : String
  exitCode : Int
deriving Repr, DecidableEq

/-- The tool's output shape (`CliOutput` in `cli.ts`); absent optional
fields are `none`. -/
structure CliOutput where
  success : Bool
  output : String
  error : Option String
  requiresApproval : Option Bool
  command : Option String
  approvalId : Option String
  riskLevel : Option RiskLevel
deriving Repr, DecidableEq

/-- `riskLevel.toUpperCase()`. -/
def riskUpper : RiskLevel → String
  | .low => "LOW"
  | .medium => "MEDIUM"
  | .high => "HIGH"
  | .critical => "CRITICAL"

/-- The template literal of the invalid-token branch. -/
def invalidTokenMsg (command : String) (p : ApprovalEntry) : String :=
  "⚠️ APPROVAL TOKEN INVALID OR EXPIRED\n\nCommand: " ++ command ++
    "\nRisk Level: " ++ riskUpper p.riskLevel ++ "\nApproval ID: " ++ p.id ++
    "\n\nPlease wait for user to approve this operation. A new approval token will be provided."

/-- The template literal of the no-token branch. -/
def writeDetectedMsg (command : String) (p : ApprovalEntry) : String :=
  "⚠️ WRITE OPERATION DETECTED - APPROVAL REQUIRED\n\nCommand: " ++ command ++
    "\nRisk Level: " ++ riskUpper p.riskLevel ++ "\nApproval ID: " ++ p.id ++
    "\n\nThis command will modify state. Waiting for user approval..."

/-- The approval-pending result shared by both gating branches. -/
def pendingOutput (command : String) (p : ApprovalEntry) (msg : String) : CliOutput :=
  { success := false, output := "", error := some msg, requiresApproval := some true,
    command := some command, approvalId := some p.id, riskLevel := some p.riskLevel }

/-- The tail of `cliTool.execute` after the gate: run the backend (modelled
as the value `execCommand(command)` settles to — `Except.error` for a
thrown exception, caught by the surrounding `try`), then shape the result.
On a non-zero exit code the code redacts `stdout` but passes `stderr`
through unredacted (`result.stderr || …`); on exit `0` both streams are
redacted. -/
def runBackend (st : StoreState) (backend : Except String CommandResult) :
    CliOutput × StoreState × Bool :=
  match backend with
  | .error msg =>
      ({ success := false, output := "", error := some msg, requiresApproval := none,
         command := none, approvalId := none, riskLevel := none }, st, true)
  | .ok r =>
      if r.exitCode ≠ 0 then
        ({ success := false,
           output := if r.stdout ≠ "" then filterSensitiveData r.stdout else "",
           error := some (if r.stderr ≠ "" then r.stderr
             else "Command failed with exit code " ++ toString r.exitCode),
           requiresApproval := none, command := none, approvalId := none,
           riskLevel := none }, st, true)
      else
        ({ success := true, output := filterSensitiveData r.stdout,
           error := if r.stderr ≠ "" then some (filterSensitiveData r.stderr) else none,
           requiresApproval := none, command := none, approvalId := none,
           riskLevel := none }, st, true)

/-- `cliTool.execute`: the write gate, token validation, approval request
and backend call, returning the tool output, the ledger state after the
call, and whether the execution backend was invoked.  `freshId` and
`freshToken` stand for the `randomBytes` values a `requestApproval` in this
call would generate; `backend` is the behaviour of `execCommand`. -/
def cliExecute (st : StoreState) (now : Nat) (freshId freshToken : String)
    (backend : Except String CommandResult) (command : String)
    (approvalToken : Option String) : CliOutput × StoreState × Bool :=
  if isWriteCommand command then
    match approvalToken with
    | some tok =>
        let r := validateToken st now command tok
        if r.1 then runBackend r.2 backend
        else
          let q := requestApproval r.2 now freshId freshToken command
          (pendingOutput command q.1 (invalidTokenMsg command q.1), q.2, false)
    | none =>
        let q := requestApproval st now freshId freshToken command
        (pendingOutput command q.1 (writeDetectedMsg command q.1), q.2, false)
  else runBackend st backend

/-! ## Remote-shell output parsing (`execSSHCommand` from `bashlet.ts`)

The polling loop and the SSH channel are I/O; what the claims are about is
the pure parsing step applied to the buffered shell output once (and if)
the marker appears.  `buffer` below is the `shellBuffer` snapshot the loop
inspects; the marker is an arbitrary word-character string (the source uses
`__TRIAGENT_END_<hex>__`, which contains no regex metacharacters, so the
dynamically built `RegExp` is a literal search). -/

/-- Literal (case-sensitive) prefix test: does `needle` start `hay`? -/
def isPre : List Char → List Char → Bool
  | [], _ => true
  | _ :: _, [] => false
  | a :: as, b :: bs => a = b && isPre as bs

/-- JS `hay.indexOf(needle)`: position of the first occurrence. -/
def idxOf (needle : List Char) : List Char → Option Nat
  | [] => if isPre needle [] then some 0 else none
  | c :: rest =>
      if isPre needle (c :: rest) then some 0
      else (idxOf needle rest).map fun n => n + 1

/-- JS `hay.includes(needle)`. -/
def listIncludes (hay needle : List Char) : Bool :=
  (idxOf needle hay).isSome

/-- JS `s.split("\n")`. -/
def splitNl : List Char → List (List Char)
  | [] => [[]]
  | c :: rest =>
      let r := splitNl rest
      if c = '\n' then [] :: r
      else
        match r with
        | [] => [[c]]
        | l :: ls => (c :: l) :: ls

/-- JS `lines.join("\n")`. -/
def joinNl : List (List Char) → List Char
  | [] => []
  | [l] => l
  | l :: rest => l ++ '\n' :: joinNl rest

/-- JS `s.trim()`. -/
def jsTrim (s : List Char) : List Char :=
  ((s.dropWhile jsWS).reverse.dropWhile jsWS).reverse

/-- The search performed by `afterMarker.match(new RegExp(marker + ":(\\d+)"))`:
the first position where the marker, a colon and at least one digit occur,
returning the greedy digit run. -/
def findExitDigits (marker : List Char) : List Char → Option (List Char)
  | [] => none
  | c :: rest =>
      if isPre (marker ++ [':']) (c :: rest) then
        let ds := ((c :: rest).drop (marker.length + 1)).takeWhile fun d => d.isDigit
        if ds.isEmpty then findExitDigits marker rest else some ds
      else findExitDigits marker rest

/-- `parseInt` on a digit run. -/
def natOfDigits (ds : List Char) : Nat :=
  ds.foldl (fun n c => n * 10 + (c.toNat - '0'.toNat)) 0

/-- The wrapped command written to the shell (without the trailing
newline): `` `${command}; echo "${marker}:$?"` ``. -/
def wrapCommand (command marker : String) : String :=
  command ++ "; echo \"" ++ marker ++ ":$?\""

/-- The marker-found branch of `execSSHCommand`: slice at the first marker
occurrence, recover the exit code digits after the marker (`0` when the
regex finds none), drop the first pre-marker line when it contains the
first 20 characters of the command, join and trim.  `none` when the marker
is nowhere in the buffer. -/
def parseShellBuffer (marker command buffer : String) : Option CommandResult :=
  match idxOf marker.data buffer.data with
  | none => none
  | some i =>
      let afterMarker := buffer.data.drop i
      let code : Nat :=
        match findExitDigits marker.data afterMarker with
        | some ds => natOfDigits ds
        | none => 0
      let lines := splitNl (buffer.data.take i)
      let lines2 :=
        match lines with
        | [] => lines
        | l0 :: rest => if listIncludes l0 (command.data.take 20) then rest else lines
      some { stdout := String.mk (jsTrim (joinNl lines2)), stderr := "", exitCode := (code : Int) }

/-- `execSSHCommand`'s result as a function of the final buffer: the parsed
result when the marker appeared, the timeout result (partial buffer,
synthetic exit code 124) when it never did. -/
def execSSHParse (marker command buffer : String) : CommandResult :=
  match parseShellBuffer marker command buffer with
  | some r => r
  | none => { stdout := buffer, stderr := "Command timed out", exitCode := 124 }

/-- The stdout extraction exactly as the claim words it (to be compared
with `parseShellBuffer`): everything in the buffer before the marker
*line*, with the first line removed only when it *is* the echoed input
command. -/
def specStdout (marker command buffer : String) : String :=
  let lines := (splitNl buffer.data).takeWhile fun l => !listIncludes l marker.data
  let lines2 :=
    match lines with
    | [] => lines
    | l0 :: rest => if l0 = (wrapCommand command marker).data then rest else lines
  String.mk (joinNl lines2)

/-! ## Ledger operation traces (for the one-time-use claim) -/

/-- One call to the singleton `approvalStore`, with the times and random
values it observes. -/
inductive LedgerOp where
  | reqOp (now : Nat) (id token command : String)
  | approveOp (now : Nat) (id : String)
  | rejectOp (id : String)
  | validateOp (now : Nat) (command token : String)
  | getPendingOp (now : Nat) (id : String)
  | getAllOp (now : Nat)
  | clearOp (now : Nat)
deriving Repr, DecidableEq

/-- The state transition of one ledger call. -/
def applyOp (st : StoreState) : LedgerOp → StoreState
  | .reqOp now id token command => (requestApproval st now id token command).2
  | .approveOp now id => (approve st now id).2
  | .rejectOp id => reject st id
  | .validateOp now command token => (validateToken st now command token).2
  | .getPendingOp now id => (getPending st now id).2
  | .getAllOp now => (getAllPending st now).2
  | .clearOp now => clearExpired st now

/-- A sequence of ledger calls. -/
def applyOps (st : StoreState) (ops : List LedgerOp) : StoreState :=
  ops.foldl applyOp st

/-- Does this operation mint the given token (i.e. is it a
`requestApproval` whose `randomBytes` token collides with it)? -/
def mintsToken (tok : String) : LedgerOp → Bool
  | .reqOp _ _ token _ => token = tok
  | _ => false

/-- The token is nowhere in the store: not an approved token, and not the
token of any pending approval. -/
def tokFree (tok : String) (st : StoreState) : Prop :=
  mapGet st.approvedTokens tok = none ∧ ∀ e ∈ st.pending, e.2.token ≠ tok

/-- Fold a sequence of `validateToken` calls for the same token, keeping
the evolving store. -/
def mismatchRun (st : StoreState) (tok : String) (calls : List (Nat × String)) : StoreState :=
  calls.foldl (fun s c => (validateToken s c.1 c.2 tok).2) st

/-! ## Map and ledger lemmas -/

theorem mapGet_eq_none_iff {α : Type} (m : List (String × α)) (k : String) :
    mapGet m k = none ↔ ∀ e ∈ m, e.1 ≠ k := by
  simp [mapGet, List.find?_eq_none]

theorem mapGet_some_mem {α : Type} {m : List (String × α)} {k : String} {v : α}
    (h : mapGet m k = some v) : (k, v) ∈ m := by
  unfold mapGet at h
  obtain ⟨e, he, hev⟩ := Option.map_eq_some'.mp h
  have hmem := List.mem_of_find?_eq_some he
  have hkey := List.find?_some he
  simp only [decide_eq_true_eq] at hkey
  obtain ⟨e1, e2⟩ := e
  simp only at hkey hev
  subst hkey; subst hev
  exact hmem

theorem mapGet_mapDelete_self {α : Type} (m : List (String × α)) (k : String) :
    mapGet (mapDelete m k) k = none := by
  rw [mapGet_eq_none_iff]
  intro e he
  rw [mapDelete, List.mem_filter] at he
  simpa using he.2

theorem mapGet_filter_none {α : Type} {m : List (String × α)} {k : String}
    (p : String × α → Bool) (h : mapGet m k = none) : mapGet (m.filter p) k = none := by
  rw [mapGet_eq_none_iff] at h ⊢
  exact fun e he => h e (List.mem_filter.mp he).1

theorem mapGet_mapSet_none {α : Type} {m : List (String × α)} {k k' : String} {v : α}
    (hne : k' ≠ k) (h : mapGet m k = none) : mapGet (mapSet m k' v) k = none := by
  rw [mapGet_eq_none_iff] at h ⊢
  intro e he
  unfold mapSet at he
  split at he
  · obtain ⟨e0, he0, rfl⟩ := List.mem_map.mp he
    split
    · exact hne
    · exact h e0 he0
  · rcases List.mem_append.mp he with h1 | h1
    · exact h e h1
    · simp only [List.mem_singleton] at h1
      subst h1
      exact hne

theorem forall_mem_mapSet {α : Type} {P : String × α → Prop} {m : List (String × α)}
    {k : String} {v : α} (hm : ∀ e ∈ m, P e) (hv : P (k, v)) :
    ∀ e ∈ mapSet m k v, P e := by
  intro e he
  unfold mapSet at he
  split at he
  · obtain ⟨e0, he0, rfl⟩ := List.mem_map.mp he
    split
    · exact hv
    · exact hm e0 he0
  · rcases List.mem_append.mp he with h1 | h1
    · exact hm e h1
    · simp only [List.mem_singleton] at h1
      subst h1
      exact hv

theorem forall_mem_filter {α : Type} {P : String × α → Prop} {m : List (String × α)}
    {p : String × α → Bool} (hm : ∀ e ∈ m, P e) : ∀ e ∈ m.filter p, P e :=
  fun e he => hm e (List.mem_filter.mp he).1

/-- A token that is nowhere in the store stays nowhere under every ledger
call that does not mint that very token. -/
theorem tokFree_applyOp {tok : String} {st : StoreState} {op : LedgerOp}
    (h : tokFree tok st) (hop : mintsToken tok op = false) :
    tokFree tok (applyOp st op) := by
  obtain ⟨hA, hP⟩ := h
  unfold tokFree
  cases op with
  | reqOp now id token command =>
      have htok : token ≠ tok := by
        simpa [mintsToken] using hop
      simp only [applyOp, requestApproval, clearExpired]
      exact ⟨mapGet_filter_none _ hA, forall_mem_mapSet (forall_mem_filter hP) htok⟩
  | approveOp now id =>
      simp only [applyOp, approve, mapDelete]
      cases hg : mapGet st.pending id with
      | none => exact ⟨hA, hP⟩
      | some p =>
          have hptok : p.token ≠ tok := hP (id, p) (mapGet_some_mem hg)
          dsimp only
          split
          · exact ⟨hA, forall_mem_filter hP⟩
          · exact ⟨mapGet_mapSet_none hptok hA, forall_mem_filter hP⟩
  | rejectOp id =>
      simp only [applyOp, reject, mapDelete]
      exact ⟨hA, forall_mem_filter hP⟩
  | validateOp now command token =>
      simp only [applyOp, validateToken, mapDelete]
      cases hg : mapGet st.approvedTokens token with
      | none => exact ⟨hA, hP⟩
      | some a =>
          dsimp only
          split
          · exact ⟨mapGet_filter_none _ hA, hP⟩
          · split
            · exact ⟨hA, hP⟩
            · exact ⟨mapGet_filter_none _ hA, hP⟩
  | getPendingOp now id =>
      simp only [applyOp, getPending, mapDelete]
      cases hg : mapGet st.pending id with
      | none => exact ⟨hA, hP⟩
      | some p =>
          dsimp only
          split
          · exact ⟨hA, forall_mem_filter hP⟩
          · exact ⟨hA, hP⟩
  | getAllOp now =>
      simp only [applyOp, getAllPending, clearExpired]
      exact ⟨mapGet_filter_none _ hA, forall_mem_filter hP⟩
  | clearOp now =>
      simp only [applyOp, clearExpired]
      exact ⟨mapGet_filter_none _ hA, forall_mem_filter hP⟩

theorem tokFree_applyOps {tok : String} {ops : List LedgerOp} {st : StoreState}
    (h : tokFree tok st) (hops : ∀ op ∈ ops, mintsToken tok op = false) :
    tokFree tok (applyOps st ops) := by
  induction ops generalizing st with
  | nil => exact h
  | cons op rest ih =>
      exact ih (tokFree_applyOp h (hops op (List.mem_cons_self op rest)))
        fun o ho => hops o (List.mem_cons_of_mem op ho)

/-- A validation of a token that is nowhere in the store fails. -/
theorem validateToken_of_tokFree {tok : String} {st : StoreState}
    (h : tokFree tok st) (now : Nat) (command : String) :
    (validateToken st now command tok).1 = false := by
  simp [validateToken, h.1]

/-- A successful validation deletes exactly the validated token and leaves
the pending map unchanged. -/
theorem validateToken_some_eq {st : StoreState} {now : Nat} {command tok : String}
    {a : TokenEntry} (hg : mapGet st.approvedTokens tok = some a) :
    validateToken st now command tok =
      if expiredB now a.expiresAt then
        (false, { st with approvedTokens := mapDelete st.approvedTokens tok })
      else if a.command ≠ command then (false, st)
      else (true, { st with approvedTokens := mapDelete st.approvedTokens tok }) := by
  unfold validateToken
  rw [hg]

theorem validateToken_true_state {st : StoreState} {now : Nat} {command tok : String}
    (h : (validateToken st now command tok).1 = true) :
    (validateToken st now command tok).2
      = { st with approvedTokens := mapDelete st.approvedTokens tok } := by
  cases hg : mapGet st.approvedTokens tok with
  | none =>
      unfold validateToken at h
      rw [hg] at h
      simp at h
  | some a =>
      rw [validateToken_some_eq hg] at h ⊢
      by_cases h1 : expiredB now a.expiresAt = true
      · rw [if_pos h1] at h
        simp at h
      · rw [if_neg h1] at h ⊢
        by_cases h2 : a.command ≠ command
        · rw [if_pos h2] at h
          simp at h
        · rw [if_neg h2] at h ⊢

/-- A command-mismatch validation of an unexpired token returns false and
leaves the store untouched. -/
theorem validateToken_mismatch {st : StoreState} {now : Nat} {tok other : String}
    {a : TokenEntry} (hg : mapGet st.approvedTokens tok = some a)
    (hexp : ¬ a.expiresAt < now) (hne : other ≠ a.command) :
    validateToken st now other tok = (false, st) := by
  rw [validateToken_some_eq hg]
  have h1 : ¬ expiredB now a.expiresAt = true := by
    simp [expiredB, hexp]
  rw [if_neg h1, if_pos (Ne.symm hne)]

/-- Validating the exact stored command of an unexpired token succeeds. -/
theorem validateToken_exact {st : StoreState} {now : Nat} {tok : String}
    {a : TokenEntry} (hg : mapGet st.approvedTokens tok = some a)
    (hexp : ¬ a.expiresAt < now) :
    (validateToken st now a.command tok).1 = true := by
  rw [validateToken_some_eq hg]
  have h1 : ¬ expiredB now a.expiresAt = true := by
    simp [expiredB, hexp]
  rw [if_neg h1]
  simp

/-- Unfolded form of `approve` once the lookup has succeeded. -/
theorem approve_some_eq {st : StoreState} {now : Nat} {id : String}
    {p : ApprovalEntry} (hg : mapGet st.pending id = some p) :
    approve st now id =
      if expiredB now p.expiresAt then
        (none, { st with pending := mapDelete st.pending id })
      else
        (some p.token,
          { pending := mapDelete st.pending id
            approvedTokens := mapSet st.approvedTokens p.token
              { command := p.command, expiresAt := p.expiresAt } }) := by
  unfold approve
  rw [hg]

/-- Unfolded form of `getPending` once the lookup has succeeded. -/
theorem getPending_some_eq {st : StoreState} {now : Nat} {id : String}
    {p : ApprovalEntry} (hg : mapGet st.pending id = some p) :
    getPending st now id =
      if expiredB now p.expiresAt then
        (none, { st with pending := mapDelete st.pending id })
      else (some p, st) := by
  unfold getPending
  rw [hg]

/-- A command with a tier was detected as a write command. -/
theorem classify_some_isWrite {command : String} {t : RiskLevel}
    (h : classify command = some t) : isWriteCommand command = true := by
  by_cases hw : isWriteCommand command = true
  · exact hw
  · simp [classify, hw] at h

theorem isPre_append_self (xs ys : List Char) : isPre xs (xs ++ ys) = true := by
  induction xs with
  | nil => rfl
  | cons x rest ih => simp [isPre, ih]

theorem takeWhile_all_stop {p : Char → Bool} {ds : List Char} (c : Char)
    (rest : List Char) (hds : ∀ d ∈ ds, p d = true) (hc : p c = false) :
    (ds ++ c :: rest).takeWhile p = ds := by
  induction ds with
  | nil => simp [List.takeWhile, hc]
  | cons d tail ih =>
      have hd := hds d (List.mem_cons_self d tail)
      have hrest := ih fun e he => hds e (List.mem_cons_of_mem d he)
      simp only [List.cons_append, List.takeWhile, hd, List.append_eq, hrest]

theorem drop_marker_colon (marker t : List Char) :
    (marker ++ ':' :: t).drop (marker.length + 1) = t := by
  have h1 : marker ++ ':' :: t = (marker ++ [':']) ++ t := by
    simp
  have h2 : marker.length + 1 = (marker ++ [':']).length := by
    simp
  rw [h1, h2, List.drop_left]

/-- Equation of `findExitDigits` on a cons-shaped input. -/
theorem findExitDigits_cons_eq (marker : List Char) (c : Char) (rest : List Char) :
    findExitDigits marker (c :: rest) =
      if isPre (marker ++ [':']) (c :: rest) then
        let ds := ((c :: rest).drop (marker.length + 1)).takeWhile fun d => d.isDigit
        if ds.isEmpty then findExitDigits marker rest else some ds
      else findExitDigits marker rest := rfl

/-- The exit-code extraction in general: when the text after the marker
index is the marker, a colon and a non-empty digit run ended by a newline,
the regex search recovers exactly that digit run. -/
theorem findExitDigits_immediate (marker ds rest : List Char)
    (hne : ds ≠ []) (hds : ∀ d ∈ ds, d.isDigit = true) :
    findExitDigits marker (marker ++ ':' :: (ds ++ '\n' :: rest)) = some ds := by
  have hpre : isPre (marker ++ [':']) (marker ++ ':' :: (ds ++ '\n' :: rest)) = true := by
    have hshape : marker ++ ':' :: (ds ++ '\n' :: rest)
        = (marker ++ [':']) ++ (ds ++ '\n' :: rest) := by
      simp
    rw [hshape]
    exact isPre_append_self _ _
  obtain ⟨d, tl, rfl⟩ : ∃ d tl, ds = d :: tl := by
    cases ds with
    | nil => exact absurd rfl hne
    | cons d tl => exact ⟨d, tl, rfl⟩
  have hd : d.isDigit = true := hds d (List.mem_cons_self d tl)
  have hts : (tl ++ '\n' :: rest).takeWhile (fun x => x.isDigit) = tl :=
    takeWhile_all_stop '\n' rest (fun e he => hds e (List.mem_cons_of_mem d he)) (by decide)
  cases hm : marker with
  | nil =>
      subst hm
      simp only [List.nil_append, List.cons_append] at hpre ⊢
      rw [findExitDigits_cons_eq]
      simp [hpre, hts, hd]
  | cons m ms =>
      subst hm
      simp only [List.cons_append] at hpre ⊢
      rw [findExitDigits_cons_eq]
      simp [hpre, hts, hd]

/-! ## The claims -/

/-- C1.  Safety of the write gate: whenever the classifier assigns a risk
tier to a command (equivalently, `isWriteCommand` holds) and `execute` is
invoked without an approval token, the returned result has
`requiresApproval = true` and `success = false`, and the execution backend
is not called — for every ledger state, time, fresh id/token and backend
behaviour. -/
theorem write_gate_blocks_execution (st : StoreState) (now : Nat)
    (freshId freshToken : String) (backend : Except String CommandResult)
    (command : String) (t : RiskLevel) (h : classify command = some t) :
    (cliExecute st now freshId freshToken backend command none).1.requiresApproval = some true ∧
    (cliExecute st now freshId freshToken backend command none).1.success = false ∧
    (cliExecute st now freshId freshToken backend command none).2.2 = false := by
  have hw := classify_some_isWrite h
  unfold cliExecute
  rw [if_pos hw]
  exact ⟨rfl, rfl, rfl⟩

/-- C1 witness: a concrete blocked invocation for
`"kubectl delete pod x"` (tier `high`). -/
theorem write_gate_blocks_execution_witness :
    (cliExecute ⟨[], []⟩ 0 "id1" "tok1" (Except.ok ⟨"", "", 0⟩)
      "kubectl delete pod x" none).1.requiresApproval = some true ∧
    (cliExecute ⟨[], []⟩ 0 "id1" "tok1" (Except.ok ⟨"", "", 0⟩)
      "kubectl delete pod x" none).1.success = false ∧
    (cliExecute ⟨[], []⟩ 0 "id1" "tok1" (Except.ok ⟨"", "", 0⟩)
      "kubectl delete pod x" none).2.2 = false :=
  write_gate_blocks_execution ⟨[], []⟩ 0 "id1" "tok1" (Except.ok ⟨"", "", 0⟩)
    "kubectl delete pod x" RiskLevel.high (by decide)

/-- C2.  One-time use: once `validateToken(command, token)` has returned
true, every later `validateToken` call with that token returns false, after
any sequence of ledger operations — provided the token does not collide
with a token of a pre-existing pending approval and no later
`requestApproval` mints the same random token again (which is what
`randomBytes(16)` makes overwhelmingly certain and the specification
assumes by calling generated tokens fresh). -/
theorem validateToken_one_time (st : StoreState) (now : Nat) (command tok : String)
    (hval : (validateToken st now command tok).1 = true)
    (hpend : ∀ e ∈ st.pending, e.2.token ≠ tok)
    (ops : List LedgerOp) (hops : ∀ op ∈ ops, mintsToken tok op = false)
    (now' : Nat) (command' : String) :
    (validateToken (applyOps (validateToken st now command tok).2 ops) now' command' tok).1
      = false := by
  have hstate := validateToken_true_state hval
  have hfree : tokFree tok (validateToken st now command tok).2 := by
    rw [hstate]
    exact ⟨mapGet_mapDelete_self _ _, hpend⟩
  exact validateToken_of_tokFree (tokFree_applyOps hfree hops) now' command'

/-- C2 witness: a concrete second validation (even a back-to-back one)
fails after the first succeeded. -/
theorem validateToken_one_time_witness :
    (validateToken
      (applyOps
        (validateToken ⟨[], [("tok1", ⟨"kubectl delete pod x", 100⟩)]⟩ 50
          "kubectl delete pod x" "tok1").2
        [LedgerOp.validateOp 60 "kubectl delete pod x" "tok1"])
      70 "kubectl delete pod x" "tok1").1 = false :=
  validateToken_one_time ⟨[], [("tok1", ⟨"kubectl delete pod x", 100⟩)]⟩ 50
    "kubectl delete pod x" "tok1" (by decide) (by decide)
    [LedgerOp.validateOp 60 "kubectl delete pod x" "tok1"] (by decide)
    70 "kubectl delete pod x"

/-- C3.  Expiry: once `expiresAt` has passed (the strict comparison
`new Date() > expiresAt`), `approve(id)` returns nil and deletes the
pending entry, and `validateToken(command, token)` returns false and
deletes the token — the latter for every supplied command string, hence
also when the command matches exactly (expiry is checked before the
command comparison). -/
theorem expired_entries_fail :
    (∀ (st : StoreState) (now : Nat) (id : String) (p : ApprovalEntry),
      mapGet st.pending id = some p → p.expiresAt < now →
      approve st now id = (none, { st with pending := mapDelete st.pending id })) ∧
    (∀ (st : StoreState) (now : Nat) (command tok : String) (a : TokenEntry),
      mapGet st.approvedTokens tok = some a → a.expiresAt < now →
      validateToken st now command tok
        = (false, { st with approvedTokens := mapDelete st.approvedTokens tok })) := by
  constructor
  · intro st now id p hg hexp
    rw [approve_some_eq hg]
    have h1 : expiredB now p.expiresAt = true := by
      simp [expiredB, hexp]
    rw [if_pos h1]
  · intro st now command tok a hg hexp
    rw [validateToken_some_eq hg]
    have h1 : expiredB now a.expiresAt = true := by
      simp [expiredB, hexp]
    rw [if_pos h1]

/-- C3 witness: a concrete expired approval and a concrete expired token
(with exactly matching command). -/
theorem expired_entries_fail_witness :
    approve ⟨[("a", ⟨"a", "cmd", "t1", RiskLevel.low, 0, 10⟩)], []⟩ 100 "a"
      = (none, { (⟨[("a", ⟨"a", "cmd", "t1", RiskLevel.low, 0, 10⟩)], []⟩ : StoreState) with
          pending := mapDelete [("a", ⟨"a", "cmd", "t1", RiskLevel.low, 0, 10⟩)] "a" }) ∧
    validateToken ⟨[], [("t1", ⟨"cmd", 10⟩)]⟩ 100 "cmd" "t1"
      = (false, { (⟨[], [("t1", ⟨"cmd", 10⟩)]⟩ : StoreState) with
          approvedTokens := mapDelete [("t1", ⟨"cmd", 10⟩)] "t1" }) :=
  ⟨expired_entries_fail.1 ⟨[("a", ⟨"a", "cmd", "t1", RiskLevel.low, 0, 10⟩)], []⟩ 100 "a"
      ⟨"a", "cmd", "t1", RiskLevel.low, 0, 10⟩ (by decide) (by decide),
   expired_entries_fail.2 ⟨[], [("t1", ⟨"cmd", 10⟩)]⟩ 100 "cmd" "t1"
      ⟨"cmd", 10⟩ (by decide) (by decide)⟩

/-- C4.  Exact-command binding: an unexpired token stored for command `A`
fails validation against any other command string. -/
theorem token_command_mismatch_fails (st : StoreState) (now : Nat)
    (tok other : String) (a : TokenEntry)
    (hg : mapGet st.approvedTokens tok = some a)
    (hexp : ¬ a.expiresAt < now) (hne : other ≠ a.command) :
    (validateToken st now other tok).1 = false := by
  rw [validateToken_mismatch hg hexp hne]

/-- C4 witness: a concrete unexpired token for `"cmd A"` rejected against
`"cmd B"`. -/
theorem token_command_mismatch_fails_witness :
    (validateToken ⟨[], [("t1", ⟨"cmd A", 100⟩)]⟩ 50 "cmd B" "t1").1 = false :=
  token_command_mismatch_fails ⟨[], [("t1", ⟨"cmd A", 100⟩)]⟩ 50 "t1" "cmd B"
    ⟨"cmd A", 100⟩ (by decide) (by decide) (by decide)

/-- C5.  Classifier examples: `"kubectl delete namespace prod"` is tier
critical, `"kubectl get pods -A"` gets no tier, and any command matching no
write pattern gets no tier.  The tier tables are consulted in the fixed
order critical, high, medium by `classifyRisk`, so the first matching
table wins — the delete-namespace command also matches the high-tier
`kubectl delete` pattern yet classifies critical. -/
theorem classify_examples :
    classify "kubectl delete namespace prod" = some RiskLevel.critical ∧
    classify "kubectl get pods -A" = none ∧
    ∀ command : String, isWriteCommand command = false → classify command = none := by
  refine ⟨by decide, by decide, ?_⟩
  intro command h
  simp [classify, h]

/-- C5 witness: the no-pattern conjunct applied to the read-only command
`"ls -la"`. -/
theorem classify_examples_witness :
    isWriteCommand "ls -la" = false ∧ classify "ls -la" = none :=
  ⟨by decide, classify_examples.2.2 "ls -la" (by decide)⟩

/-- C6 counterexample.  `getPending(id)` does not sweep: querying one
expired entry leaves a second expired pending approval and an expired
approved token in the store, so "getPending … removes all expired
PendingApprovals and ApprovedTokens before returning" is false as stated
(at time 100 every entry of this store expired at 10). -/
theorem getPending_leaves_expired_entries :
    (getPending ⟨[("a", ⟨"a", "c1", "t1", RiskLevel.low, 0, 10⟩),
        ("b", ⟨"b", "c2", "t2", RiskLevel.low, 0, 10⟩)],
        [("t3", ⟨"c3", 10⟩)]⟩ 100 "a").1 = none ∧
    (getPending ⟨[("a", ⟨"a", "c1", "t1", RiskLevel.low, 0, 10⟩),
        ("b", ⟨"b", "c2", "t2", RiskLevel.low, 0, 10⟩)],
        [("t3", ⟨"c3", 10⟩)]⟩ 100 "a").2.pending
      = [("b", ⟨"b", "c2", "t2", RiskLevel.low, 0, 10⟩)] ∧
    (getPending ⟨[("a", ⟨"a", "c1", "t1", RiskLevel.low, 0, 10⟩),
        ("b", ⟨"b", "c2", "t2", RiskLevel.low, 0, 10⟩)],
        [("t3", ⟨"c3", 10⟩)]⟩ 100 "a").2.approvedTokens
      = [("t3", ⟨"c3", 10⟩)] ∧
    (10 : Nat) < 100 := by
  decide

/-- C6 amended.  `getAllPending` (the spec's `listPending`) and
`requestApproval` sweep all expired pending approvals and approved tokens
via `clearExpired` before returning; `getPending(id)`, by contrast, removes
only the queried entry when that entry is expired (returning none for it)
and leaves every other expired entry in place. -/
theorem ledger_sweep_amended :
    (∀ (st : StoreState) (now : Nat),
      (∀ e ∈ (getAllPending st now).2.pending, ¬ e.2.expiresAt < now) ∧
      (∀ e ∈ (getAllPending st now).2.approvedTokens, ¬ e.2.expiresAt < now)) ∧
    (∀ (st : StoreState) (now : Nat) (id token command : String),
      (∀ e ∈ (requestApproval st now id token command).2.pending, ¬ e.2.expiresAt < now) ∧
      (∀ e ∈ (requestApproval st now id token command).2.approvedTokens, ¬ e.2.expiresAt < now)) ∧
    (∀ (st : StoreState) (now : Nat) (id : String) (p : ApprovalEntry),
      mapGet st.pending id = some p → p.expiresAt < now →
      getPending st now id = (none, { st with pending := mapDelete st.pending id })) := by
  refine ⟨?_, ?_, ?_⟩
  · intro st now
    constructor
    · intro e he
      have h2 := (List.mem_filter.mp he).2
      simpa [expiredB] using h2
    · intro e he
      have h2 := (List.mem_filter.mp he).2
      simpa [expiredB] using h2
  · intro st now id token command
    constructor
    · simp only [requestApproval, clearExpired]
      refine forall_mem_mapSet ?_ ?_
      · intro e he
        have h2 := (List.mem_filter.mp he).2
        simpa [expiredB] using h2
      · simp [EXPIRATION_MS]
    · simp only [requestApproval, clearExpired]
      intro e he
      have h2 := (List.mem_filter.mp he).2
      simpa [expiredB] using h2
  · intro st now id p hg hexp
    rw [getPending_some_eq hg]
    have h1 : expiredB now p.expiresAt = true := by
      simp [expiredB, hexp]
    rw [if_pos h1]

/-- C6 amended witness: the sweep and single-removal facts at the
counterexample's store. -/
theorem ledger_sweep_amended_witness :
    (∀ e ∈ (getAllPending ⟨[("a", ⟨"a", "c1", "t1", RiskLevel.low, 0, 10⟩)],
        [("t3", ⟨"c3", 10⟩)]⟩ 100).2.approvedTokens, ¬ e.2.expiresAt < 100) ∧
    getPending ⟨[("a", ⟨"a", "c1", "t1", RiskLevel.low, 0, 10⟩)], []⟩ 100 "a"
      = (none, { (⟨[("a", ⟨"a", "c1", "t1", RiskLevel.low, 0, 10⟩)], []⟩ : StoreState) with
          pending := mapDelete [("a", ⟨"a", "c1", "t1", RiskLevel.low, 0, 10⟩)] "a" }) :=
  ⟨(ledger_sweep_amended.1 ⟨[("a", ⟨"a", "c1", "t1", RiskLevel.low, 0, 10⟩)],
      [("t3", ⟨"c3", 10⟩)]⟩ 100).2,
   ledger_sweep_amended.2.2 ⟨[("a", ⟨"a", "c1", "t1", RiskLevel.low, 0, 10⟩)], []⟩ 100 "a"
      ⟨"a", "c1", "t1", RiskLevel.low, 0, 10⟩ (by decide) (by decide)⟩

/-- C7.  The non-zero-exit branch of `cliTool.execute` returns the
backend's stderr *unredacted* in `error` (the code reads
`result.stderr || …` with no `filterSensitiveData` around it), while the
zero-exit branch of the very same function does redact stderr: at a
backend result with exit code 1 and a bearer token in stderr, the tool
output carries the secret verbatim, although the redaction function would
have masked it. -/
theorem failure_stderr_unredacted :
    (cliExecute ⟨[], []⟩ 0 "id1" "tok1"
        (Except.ok ⟨"", "Authorization: Bearer abc123", 1⟩)
        "kubectl get pods" none).1.error = some "Authorization: Bearer abc123" ∧
    filterSensitiveData "Authorization: Bearer abc123"
      = "Authorization: Bearer [REDACTED]" ∧
    (cliExecute ⟨[], []⟩ 0 "id1" "tok1"
        (Except.ok ⟨"", "Authorization: Bearer abc123", 0⟩)
        "kubectl get pods" none).1.error = some "Authorization: Bearer [REDACTED]" := by
  decide

/-- C8 counterexample.  The first pre-marker line is removed whenever it
*contains* the first 20 characters of the command, not when it *is* the
echoed input: on a buffer whose first line is ordinary output mentioning
the command, `execSSHCommand` drops that line, while the claim's
stdout-extraction rule (`specStdout`) keeps it. -/
theorem shell_first_line_heuristic_counterexample :
    (execSSHParse "__TRIAGENT_END_abcd1234__" "echo hi"
        "say echo hi please\nreal\n__TRIAGENT_END_abcd1234__:0\n").stdout = "real" ∧
    specStdout "__TRIAGENT_END_abcd1234__" "echo hi"
        "say echo hi please\nreal\n__TRIAGENT_END_abcd1234__:0\n"
      = "say echo hi please\nreal" ∧
    ("real" : String) ≠ "say echo hi please\nreal" := by
  decide

/-- C8 amended.  The wrapped command is
`<command>; echo "<marker>:$?"`; on the claim's fake stream the parse
returns stdout `"hi"`, stderr `""` and exit code 0; the exit code is the
digit run after `<marker>:` (here 127); and the first pre-marker line is
removed when it contains the first 20 characters of the input command,
the remainder being whitespace-trimmed. -/
theorem shell_marker_protocol_amended :
    wrapCommand "echo hi" "__TRIAGENT_END_abcd1234__"
      = "echo hi; echo \"__TRIAGENT_END_abcd1234__:$?\"" ∧
    execSSHParse "__TRIAGENT_END_abcd1234__" "echo hi"
        "hi\n__TRIAGENT_END_abcd1234__:0\n" = ⟨"hi", "", 0⟩ ∧
    (execSSHParse "__TRIAGENT_END_abcd1234__" "echo hi"
        "oops\n__TRIAGENT_END_abcd1234__:127\n").exitCode = 127 ∧
    (execSSHParse "__TRIAGENT_END_abcd1234__" "echo hi"
        "say echo hi please\nreal\n__TRIAGENT_END_abcd1234__:0\n").stdout = "real" ∧
    ∀ (marker ds rest : List Char), ds ≠ [] → (∀ d ∈ ds, d.isDigit = true) →
      findExitDigits marker (marker ++ ':' :: (ds ++ '\n' :: rest)) = some ds := by
  refine ⟨by decide, by decide, by decide, by decide, ?_⟩
  exact fun marker ds rest hne hds => findExitDigits_immediate marker ds rest hne hds

/-- C8 amended witness: the digit-run conjunct instantiated at a concrete
marker, exit code 127 and trailing text. -/
theorem shell_marker_protocol_amended_witness :
    findExitDigits "__TRIAGENT_END_abcd1234__".data
      ("__TRIAGENT_END_abcd1234__".data ++ ':' :: ("127".data ++ '\n' :: "tail".data))
      = some "127".data :=
  shell_marker_protocol_amended.2.2.2.2 "__TRIAGENT_END_abcd1234__".data "127".data
    "tail".data (by decide) (by decide)

/-- C9 counterexample.  Redaction is not idempotent: in `key a"b` the
quote cuts the captured value short, so one pass leaves the trailing `b`,
and a second pass swallows it — `filterSensitiveData` applied twice
differs from applying it once. -/
theorem redaction_not_idempotent :
    filterSensitiveData "key a\"b" = "key: [REDACTED]b" ∧
    filterSensitiveData (filterSensitiveData "key a\"b") = "key: [REDACTED]" ∧
    filterSensitiveData (filterSensitiveData "key a\"b")
      ≠ filterSensitiveData "key a\"b" := by
  decide

/-- C9 amended.  The listed shapes are replaced by their fixed
placeholders, and re-redacting those redacted outputs is a no-op; full
idempotence on arbitrary strings fails (see the counterexample). -/
theorem redaction_shapes_amended :
    filterSensitiveData "Authorization: Bearer abc123"
      = "Authorization: Bearer [REDACTED]" ∧
    filterSensitiveData "Authorization: Bearer [REDACTED]"
      = "Authorization: Bearer [REDACTED]" ∧
    filterSensitiveData "-----BEGIN CERTIFICATE-----\nMIIB\n-----END CERTIFICATE-----"
      = "[REDACTED CERTIFICATE/KEY]" ∧
    filterSensitiveData "[REDACTED CERTIFICATE/KEY]" = "[REDACTED CERTIFICATE/KEY]" ∧
    filterSensitiveData "x Authorization: Bearer abc123 y"
      = "x Authorization: Bearer [REDACTED] y" ∧
    filterSensitiveData "pre -----BEGIN CERT-----\nQUJD\n-----END CERT----- post"
      = "pre [REDACTED CERTIFICATE/KEY] post" := by
  decide

/-- C10.  A command-mismatch failure does not consume the token: any
number of `validateToken` calls with wrong commands (while the token is
unexpired) return with the store unchanged, and a subsequent validation
with the exact command before expiry still succeeds. -/
theorem mismatch_preserves_token (st : StoreState) (tok : String) (a : TokenEntry)
    (hg : mapGet st.approvedTokens tok = some a)
    (calls : List (Nat × String))
    (hcalls : ∀ c ∈ calls, ¬ a.expiresAt < c.1 ∧ c.2 ≠ a.command)
    (now' : Nat) (hnow' : ¬ a.expiresAt < now') :
    mismatchRun st tok calls = st ∧
    (validateToken (mismatchRun st tok calls) now' a.command tok).1 = true := by
  have hrun : ∀ cs : List (Nat × String),
      (∀ c ∈ cs, ¬ a.expiresAt < c.1 ∧ c.2 ≠ a.command) →
      mismatchRun st tok cs = st := by
    intro cs
    induction cs with
    | nil => intro _; rfl
    | cons c rest ih =>
        intro hcs
        have hc := hcs c (List.mem_cons_self c rest)
        have hstep : validateToken st c.1 c.2 tok = (false, st) :=
          validateToken_mismatch hg hc.1 hc.2
        calc mismatchRun st tok (c :: rest)
            = mismatchRun (validateToken st c.1 c.2 tok).2 tok rest := rfl
          _ = mismatchRun st tok rest := by rw [hstep]
          _ = st := ih fun d hd => hcs d (List.mem_cons_of_mem c hd)
  refine ⟨hrun calls hcalls, ?_⟩
  rw [hrun calls hcalls]
  exact validateToken_exact hg hnow'

/-- C10 witness: two mismatched validations leave a concrete store intact
and the exact command still validates. -/
theorem mismatch_preserves_token_witness :
    mismatchRun ⟨[], [("t1", ⟨"cmd A", 100⟩)]⟩ "t1" [(10, "cmd B"), (20, "cmd C")]
      = ⟨[], [("t1", ⟨"cmd A", 100⟩)]⟩ ∧
    (validateToken
      (mismatchRun ⟨[], [("t1", ⟨"cmd A", 100⟩)]⟩ "t1" [(10, "cmd B"), (20, "cmd C")])
      30 "cmd A" "t1").1 = true :=
  mismatch_preserves_token ⟨[], [("t1", ⟨"cmd A", 100⟩)]⟩ "t1" ⟨"cmd A", 100⟩
    (by decide) [(10, "cmd B"), (20, "cmd C")] (by decide) 30 (by decide)

end Triagent

